import Mathlib

/-!
Shallow embedding of `src/lib/ui.js` from the atom-2 repository: the `UI`
event hub (subscribe / emit / delay / reset), the project-root change
coalescer (`setProjects`), the theme-brightness edge trigger
(`getStyleElement` / `getThemeColour` / `checkMotif`), the style-patch
manager (`fixOffset`) and the one-shot waiter (`waitToSave`).

JS handler functions are represented by numeric identifiers; an invocation
of a handler is recorded by appending its identifier to an invocation log.
`setImmediate` is modelled by a FIFO task queue: scheduling appends to the
queue, and a later turn of the cooperative scheduler drains the queue into
the log.  Machine state that the claims need (the module-level `delayNext`
flag, `this.emitter`, `this.projects`, `this.lightTheme`,
`this.restoreOffset`, the `CompositeDisposable` memberships) is threaded
explicitly.  Fallible JS (a `TypeError` from dereferencing `null`) is
modelled with `Except`.
-/

namespace Spec2Proof

deriving instance DecidableEq for Except

/-- One registration held by atom's `Emitter`: the event name, an
identifier standing for the JS handler function object, and whether
`UI.subscribe` wrapped the handler in a `setImmediate` deferral because
the module-level `delayNext` flag was set (src/lib/ui.js lines 78-89). -/
structure Registration where
  event : String
  id : Nat
  deferredWrap : Bool
deriving DecidableEq

/-- atom's `Emitter`, reduced to its dispatch table: the ordered list of
registrations (insertion order is dispatch order). -/
abbrev Emitter := List Registration

/-- The disposal capability returned by `UI.subscribe`: either the no-op
`new Disposable(() => \x7b\x7d)` returned when `this.emitter` is gone, or the
`Disposable` returned by `Emitter.on` that removes its registration. -/
inductive SubHandle where
  | noop
  | registration (r : Registration)
deriving DecidableEq

/-- The machine state the hub claims are about: the module-level
`delayNext` flag (src/lib/ui.js line 6), `this.emitter` (absent when the
hub is torn down), the pending `setImmediate` callbacks in FIFO order
(each one runs a deferred-wrapped handler), and the log of handler
invocations in delivery order. -/
structure World where
  delayNext : Bool
  emitter : Option Emitter
  tasks : List Nat
  log : List Nat
deriving DecidableEq

/-- The getter `UI.delay` (src/lib/ui.js lines 109-112): sets `delayNext`
and returns `this` (the state change is all that matters here). -/
def delayGet (w : World) : World :=
  { w with delayNext := true }

/-- `UI.subscribe(eventName, handler)` (src/lib/ui.js lines 78-89).  When
`delayNext` is set the handler is replaced by a wrapper that schedules the
original via `setImmediate`, and the flag is cleared; the registration
records this with `deferredWrap := true`.  Then, if `this.emitter` exists
the registration is appended to it and its disposal capability is
returned, otherwise a no-op `Disposable` is returned. -/
def subscribe (e : String) (id : Nat) (w : World) : World × SubHandle :=
  let reg : Registration := ⟨e, id, w.delayNext⟩
  let w1 := if w.delayNext then { w with delayNext := false } else w
  match w1.emitter with
  | some regs => ({ w1 with emitter := some (regs ++ [reg]) }, SubHandle.registration reg)
  | none => (w1, SubHandle.noop)

/-- Disposing a `SubHandle`: the no-op capability does nothing; the
`Emitter.on` capability removes its own registration from the emitter
(first occurrence), and does nothing if the emitter is gone. -/
def disposeHandle (h : SubHandle) (w : World) : World :=
  match h with
  | SubHandle.noop => w
  | SubHandle.registration r =>
      { w with emitter := w.emitter.map (fun regs => regs.erase r) }

/-- Invoke a list of registrations in order (the body of
`Emitter.emit`): an unwrapped handler runs inline, appending its id to
the log; a deferred-wrapped handler runs its wrapper inline, which only
schedules the original handler on the `setImmediate` queue. -/
def dispatch (regs : List Registration) (w : World) : World :=
  match regs with
  | [] => w
  | r :: rest =>
      if r.deferredWrap then dispatch rest { w with tasks := w.tasks ++ [r.id] }
      else dispatch rest { w with log := w.log ++ [r.id] }

/-- `UI.emit(eventName, args)` (src/lib/ui.js lines 98-101): returns at
once when `this.emitter` is gone; otherwise invokes every handler
currently registered for the event, in registration order. -/
def emit (e : String) (w : World) : World :=
  match w.emitter with
  | none => w
  | some regs => dispatch (regs.filter (fun r => r.event == e)) w

/-- A later turn of the cooperative scheduler: every pending
`setImmediate` callback runs, in FIFO order, delivering the deferred
handler invocations. -/
def drainTasks (w : World) : World :=
  { w with tasks := [], log := w.log ++ w.tasks }

/-- One turn of the scheduler delivering the oldest pending
`setImmediate` callback. -/
def runTask (w : World) : World :=
  match w.tasks with
  | [] => w
  | id :: rest => { w with tasks := rest, log := w.log ++ [id] }

/-- `UI.reset()` (src/lib/ui.js lines 31-36): disposes the old
`CompositeDisposable` and `Emitter` (if any) and installs fresh empty
ones.  The module-level `delayNext` flag and the host's `setImmediate`
queue are untouched. -/
def reset (w : World) : World :=
  { w with emitter := some [] }

/-- Operations a client can perform on the hub after a `reset`; `runTask`
stands for the host scheduler delivering one pending callback. -/
inductive Op where
  | subscribe (e : String) (id : Nat)
  | emit (e : String)
  | delayGet
  | runTask
deriving DecidableEq

/-- Execute one operation. -/
def execOp (w : World) : Op → World
  | Op.subscribe e id => (Spec2Proof.subscribe e id w).1
  | Op.emit e => Spec2Proof.emit e w
  | Op.delayGet => Spec2Proof.delayGet w
  | Op.runTask => Spec2Proof.runTask w

/-- Execute a sequence of operations. -/
def execOps (w : World) (ops : List Op) : World :=
  ops.foldl execOp w

/-- Whether an operation subscribes the handler with identifier `h`. -/
def Op.subscribes (h : Nat) : Op → Bool
  | Op.subscribe _ i => i == h
  | _ => false

/-- The handler identifiers currently registered in the live emitter. -/
def registeredIds (w : World) : List Nat :=
  match w.emitter with
  | none => []
  | some regs => regs.map Registration.id

/-- How many invocations of handler `h` have been delivered or are
pending on the `setImmediate` queue. -/
def pendingCount (h : Nat) (w : World) : Nat :=
  w.log.count h + w.tasks.count h

/- ### Helper lemmas for the hub -/

lemma dispatch_emitter (regs : List Registration) (w : World) :
    (dispatch regs w).emitter = w.emitter := by
  induction regs generalizing w with
  | nil => rfl
  | cons r rest ih =>
      unfold dispatch
      by_cases hr : r.deferredWrap <;> simp [hr, ih]

lemma dispatch_delayNext (regs : List Registration) (w : World) :
    (dispatch regs w).delayNext = w.delayNext := by
  induction regs generalizing w with
  | nil => rfl
  | cons r rest ih =>
      unfold dispatch
      by_cases hr : r.deferredWrap <;> simp [hr, ih]

lemma subscribe_fst (e : String) (id : Nat) (w : World) :
    (subscribe e id w).1 =
      { w with delayNext := false,
               emitter := w.emitter.map (fun regs => regs ++ [⟨e, id, w.delayNext⟩]) } := by
  cases w with
  | mk d em ts lg => cases d <;> cases em <;> simp [subscribe]

lemma dispatch_pendingCount (h : Nat) (regs : List Registration) (w : World)
    (hreg : ∀ r ∈ regs, r.id ≠ h) :
    pendingCount h (dispatch regs w) = pendingCount h w := by
  induction regs generalizing w with
  | nil => rfl
  | cons r rest ih =>
      have hr : r.id ≠ h := hreg r (List.mem_cons_self r rest)
      have hrest : ∀ x ∈ rest, x.id ≠ h := fun x hx => hreg x (List.mem_cons_of_mem r hx)
      unfold dispatch
      by_cases hd : r.deferredWrap
      · rw [if_pos hd, ih _ hrest]
        simp [pendingCount, List.count_append, List.count_singleton, hr]
      · rw [if_neg hd, ih _ hrest]
        simp [pendingCount, List.count_append, List.count_singleton, hr]

lemma execOp_preserves (h : Nat) (w : World) (op : Op)
    (hreg : h ∉ registeredIds w) (hop : op.subscribes h = false) :
    pendingCount h (execOp w op) = pendingCount h w ∧
      h ∉ registeredIds (execOp w op) := by
  cases op with
  | subscribe e i =>
      have hi : i ≠ h := by
        simpa [Op.subscribes] using hop
      rw [show execOp w (Op.subscribe e i) = (subscribe e i w).1 from rfl, subscribe_fst]
      constructor
      · cases hw : w.emitter <;> simp [pendingCount]
      · cases hw : w.emitter with
        | none => simp [registeredIds, hw]
        | some regs =>
            simp only [registeredIds, hw] at hreg
            intro hmem
            simp [registeredIds, hw, List.mem_append] at hmem
            rcases hmem with hmem | hmem
            · exact hreg (by simpa using hmem)
            · exact hi hmem.symm
  | emit e =>
      cases hw : w.emitter with
      | none => simp [execOp, emit, hw, hreg]
      | some regs =>
          have hids : ∀ r ∈ regs.filter (fun r => r.event == e), r.id ≠ h := by
            intro r hr
            have hmem : r ∈ regs := List.mem_of_mem_filter hr
            intro hc
            exact hreg (by simp [registeredIds, hw]; exact ⟨r, hmem, hc⟩)
          refine ⟨?_, ?_⟩
          · simp only [execOp, emit, hw]
            exact dispatch_pendingCount h _ w hids
          · simp only [execOp, emit, hw, registeredIds, dispatch_emitter]
            simpa [registeredIds, hw] using hreg
  | delayGet => exact ⟨rfl, by simpa [execOp, delayGet, registeredIds] using hreg⟩
  | runTask =>
      refine ⟨?_, ?_⟩
      · simp only [execOp, runTask]
        cases ht : w.tasks with
        | nil => simp [pendingCount, ht]
        | cons t rest => simp [pendingCount, ht, List.count_append, List.count_cons, add_comm, add_assoc, add_left_comm]
      · simp only [execOp, runTask]
        cases ht : w.tasks with
        | nil => simpa [registeredIds] using hreg
        | cons t rest => simpa [registeredIds] using hreg

lemma execOps_preserves (h : Nat) (ops : List Op) (w : World)
    (hreg : h ∉ registeredIds w)
    (hops : ops.all (fun op => !(op.subscribes h)) = true) :
    pendingCount h (execOps w ops) = pendingCount h w ∧
      h ∉ registeredIds (execOps w ops) := by
  induction ops generalizing w with
  | nil => exact ⟨rfl, hreg⟩
  | cons op rest ih =>
      simp only [List.all_cons, Bool.and_eq_true, Bool.not_eq_true'] at hops
      obtain ⟨hop, hrest⟩ := hops
      have step := execOp_preserves h w op hreg hop
      have tail := ih (execOp w op) step.2 (by simpa using hrest)
      exact ⟨by simpa [execOps] using tail.1.trans step.1, by simpa [execOps] using tail.2⟩

/- ### Claims about the hub -/

/-- C1: with the `DeferredDispatchModifier` set, subscribing H1 then
(without it) H2 for event E on a fresh hub, a single `emit E` appends
exactly H2 to the invocation log before returning, while H1 is only
placed on the `setImmediate` queue; a later scheduler turn then delivers
H1 (after any previously pending work).  Each `subscribe` call leaves the
modifier `false`, whether or not it wrapped. -/
theorem deferred_dispatch_order (E : String) (h1 h2 : Nat) (w : World)
    (hw : w.emitter = some []) :
    (subscribe E h1 (delayGet w)).1.delayNext = false ∧
    (subscribe E h2 (subscribe E h1 (delayGet w)).1).1.delayNext = false ∧
    (emit E (subscribe E h2 (subscribe E h1 (delayGet w)).1).1).log = w.log ++ [h2] ∧
    (emit E (subscribe E h2 (subscribe E h1 (delayGet w)).1).1).tasks = w.tasks ++ [h1] ∧
    (drainTasks (emit E (subscribe E h2 (subscribe E h1 (delayGet w)).1).1)).log
      = (w.log ++ [h2]) ++ (w.tasks ++ [h1]) := by
  simp [delayGet, subscribe, emit, dispatch, drainTasks, hw]

/-- C1 witness: the deferred-dispatch ordering at a concrete fresh
world. -/
theorem deferred_dispatch_order_witness :
    (subscribe "evt" 1 (delayGet ⟨false, some [], [], []⟩)).1.delayNext = false ∧
    (subscribe "evt" 2 (subscribe "evt" 1 (delayGet ⟨false, some [], [], []⟩)).1).1.delayNext = false ∧
    (emit "evt" (subscribe "evt" 2 (subscribe "evt" 1 (delayGet ⟨false, some [], [], []⟩)).1).1).log = [] ++ [2] ∧
    (emit "evt" (subscribe "evt" 2 (subscribe "evt" 1 (delayGet ⟨false, some [], [], []⟩)).1).1).tasks = [] ++ [1] ∧
    (drainTasks (emit "evt" (subscribe "evt" 2 (subscribe "evt" 1 (delayGet ⟨false, some [], [], []⟩)).1).1)).log
      = ([] ++ [2]) ++ ([] ++ [1]) :=
  deferred_dispatch_order "evt" 1 2 ⟨false, some [], [], []⟩ rfl

/-- C4: starting from the state right after `reset` (which installs a
fresh empty emitter), any sequence of further operations that never
re-subscribes handler `h` leaves the number of delivered-or-scheduled
invocations of `h` unchanged: no `emit` issued after the `reset` ever
invokes a handler registered before it (pre-reset deferred deliveries
already on the host queue may still drain, but no new invocation of `h`
is ever created). -/
theorem reset_severs_old_handlers (w : World) (h : Nat) (ops : List Op)
    (hops : ops.all (fun op => !(op.subscribes h)) = true) :
    pendingCount h (execOps (reset w) ops) = pendingCount h (reset w) ∧
      h ∉ registeredIds (execOps (reset w) ops) := by
  have hreg : h ∉ registeredIds (reset w) := by simp [reset, registeredIds]
  exact execOps_preserves h ops (reset w) hreg hops

/-- C4 witness: a handler registered and even emitted before `reset` is
not invoked by emits after `reset`. -/
theorem reset_severs_old_handlers_witness :
    pendingCount 7
        (execOps (reset ⟨false, some [⟨"evt", 7, false⟩], [], [7]⟩)
          [Op.emit "evt", Op.subscribe "evt" 8, Op.emit "evt", Op.runTask]) =
      pendingCount 7 (reset ⟨false, some [⟨"evt", 7, false⟩], [], [7]⟩) ∧
      7 ∉ registeredIds
        (execOps (reset ⟨false, some [⟨"evt", 7, false⟩], [], [7]⟩)
          [Op.emit "evt", Op.subscribe "evt" 8, Op.emit "evt", Op.runTask]) :=
  reset_severs_old_handlers ⟨false, some [⟨"evt", 7, false⟩], [], [7]⟩ 7
    [Op.emit "evt", Op.subscribe "evt" 8, Op.emit "evt", Op.runTask] (by decide)

/-- C9: on a torn-down hub (no live emitter), `subscribe` returns the
no-op disposal capability, disposing that capability changes nothing,
and `emit` returns without invoking or scheduling any handler; both
operations are total (no error). -/
theorem torn_down_hub_noops (e e2 : String) (id : Nat) (w w2 : World)
    (hw : w.emitter = none) :
    (subscribe e id w).2 = SubHandle.noop ∧
    disposeHandle (subscribe e id w).2 w2 = w2 ∧
    emit e2 w = w := by
  refine ⟨?_, ?_, ?_⟩
  · by_cases hd : w.delayNext <;> simp [subscribe, hd, hw]
  · by_cases hd : w.delayNext <;> simp [subscribe, hd, hw, disposeHandle]
  · simp [emit, hw]

/-- C9 witness: the torn-down-hub no-ops at a concrete state. -/
theorem torn_down_hub_noops_witness :
    (subscribe "evt" 3 ⟨false, none, [], []⟩).2 = SubHandle.noop ∧
    disposeHandle (subscribe "evt" 3 ⟨false, none, [], []⟩).2 ⟨true, some [], [4], [5]⟩
      = ⟨true, some [], [4], [5]⟩ ∧
    emit "other" ⟨false, none, [], []⟩ = ⟨false, none, [], []⟩ :=
  torn_down_hub_noops "evt" "other" 3 ⟨false, none, [], []⟩ ⟨true, some [], [4], [5]⟩ rfl

/-- C10: `reset` leaves the module-level `delayNext` flag unchanged, so
after reading `delay` and then calling `reset`, the next `subscribe` on
the fresh hub still installs a deferred-wrapped registration (and clears
the flag); moreover once `delay` sets the flag it persists through any
sequence of operations that contains no `subscribe`. -/
theorem delay_flag_survives_reset (w : World) (E : String) (id : Nat) (ops : List Op)
    (hops : ops.all (fun op =>
      match op with
      | Op.subscribe _ _ => false
      | _ => true) = true) :
    (reset w).delayNext = w.delayNext ∧
    (reset (delayGet w)).delayNext = true ∧
    (subscribe E id (reset (delayGet w))).1.emitter = some [⟨E, id, true⟩] ∧
    (subscribe E id (reset (delayGet w))).1.delayNext = false ∧
    (execOps (delayGet w) ops).delayNext = true := by
  refine ⟨rfl, rfl, by simp [subscribe, delayGet, reset], by simp [subscribe, delayGet, reset], ?_⟩
  have key : ∀ (l : List Op) (v : World), v.delayNext = true →
      l.all (fun op =>
        match op with
        | Op.subscribe _ _ => false
        | _ => true) = true →
      (execOps v l).delayNext = true := by
    intro l
    induction l with
    | nil => intro v hv _; exact hv
    | cons op rest ih =>
        intro v hv hl
        simp only [List.all_cons, Bool.and_eq_true] at hl
        have hstep : (execOp v op).delayNext = true := by
          cases op with
          | subscribe e i => simp at hl
          | emit e =>
              simp only [execOp, emit]
              cases hv2 : v.emitter with
              | none => exact hv
              | some regs => rw [dispatch_delayNext]; exact hv
          | delayGet => rfl
          | runTask =>
              simp only [execOp, runTask]
              cases v.tasks <;> simp [hv]
        exact ih (execOp v op) hstep hl.2
  exact key ops (delayGet w) rfl hops

/-- C10 witness: `delay` then `reset` then `subscribe` at a concrete
state, with an intervening non-subscribe operation sequence. -/
theorem delay_flag_survives_reset_witness :
    (reset ⟨false, some [], [], []⟩).delayNext = (⟨false, some [], [], []⟩ : World).delayNext ∧
    (reset (delayGet ⟨false, some [], [], []⟩)).delayNext = true ∧
    (subscribe "evt" 9 (reset (delayGet ⟨false, some [], [], []⟩))).1.emitter = some [⟨"evt", 9, true⟩] ∧
    (subscribe "evt" 9 (reset (delayGet ⟨false, some [], [], []⟩))).1.delayNext = false ∧
    (execOps (delayGet ⟨false, some [], [], []⟩) [Op.emit "x", Op.runTask]).delayNext = true :=
  delay_flag_survives_reset ⟨false, some [], [], []⟩ "evt" 9 [Op.emit "x", Op.runTask] (by decide)

/- ### Change coalescer: `UI.setProjects` (src/lib/ui.js lines 249-258) -/

/-- The events `setProjects` can dispatch through `this.emit`. -/
inductive PEvent where
  | projectsAvailable
  | projectsEmptied
  | projectsChanged (fromPaths toPaths : List String)
deriving DecidableEq

/-- `UI.setProjects(toSeq)`: compares `from.join("\n")` with `toSeq.join("\n")`
(JS `Array.prototype.join` on strings is `String.intercalate`); when the
joined strings differ it stores `toSeq`, emits `projects-available` if
`toSeq.length` is non-zero and `projects-emptied` otherwise, then emits
`projects-changed` with both sequences.  Returns the new `this.projects`
together with the emitted events in order. -/
def setProjects (toSeq : List String) (projects : List String) :
    List String × List PEvent :=
  let fromPaths := projects
  if String.intercalate "\n" fromPaths ≠ String.intercalate "\n" toSeq then
    (toSeq,
      (if toSeq.length ≠ 0 then [PEvent.projectsAvailable] else [PEvent.projectsEmptied])
        ++ [PEvent.projectsChanged fromPaths toSeq])
  else (projects, [])

/-- C2 counterexample: the sequences `["a", "b"]` and `["a\nb"]` differ as
ordered sequences, yet `setProjects` emits nothing because their
newline-joined renderings coincide. -/
theorem setProjects_join_collision :
    (["a", "b"] : List String) ≠ ["a\nb"] ∧
      (setProjects ["a\nb"] ["a", "b"]).2 = [] := by
  constructor
  · decide
  · rfl

/-- C2 amended: `setProjects` emits nothing exactly when the stored and
new sequences have equal `"\n"`-joins; equal sequences therefore never
emit, but distinct sequences whose elements contain newlines can also
compare equal and emit nothing. -/
theorem setProjects_emits_iff_join_differs (projects toSeq : List String) :
    (setProjects toSeq projects).2 = [] ↔
      String.intercalate "\n" projects = String.intercalate "\n" toSeq := by
  unfold setProjects
  by_cases h : String.intercalate "\n" projects = String.intercalate "\n" toSeq
  · simp [h]
  · by_cases hl : toSeq.length ≠ 0 <;> simp [h, hl]

/-- C3 counterexample: with stored sequence `["x", "y"]`, the call
`setProjects ["x\ny"]` receives a sequence that differs as an ordered
sequence, yet the baseline is not replaced and nothing is emitted,
because the newline-joins coincide. -/
theorem setProjects_differs_but_silent :
    (["x", "y"] : List String) ≠ ["x\ny"] ∧
      (setProjects ["x\ny"] ["x", "y"]).1 = ["x", "y"] ∧
      (setProjects ["x\ny"] ["x", "y"]).2 = [] := by
  refine ⟨by decide, rfl, rfl⟩

/-- C3 amended: for every call whose new sequence differs from the stored
one under the newline-join comparison the code uses, the baseline is
replaced by the new sequence and the call emits exactly
`projects-available` (non-empty) or `projects-emptied` (empty) followed
by `projects-changed` carrying the prior and new sequences — and nothing
else. -/
theorem setProjects_change_protocol (projects toSeq : List String)
    (h : String.intercalate "\n" projects ≠ String.intercalate "\n" toSeq) :
    (setProjects toSeq projects).1 = toSeq ∧
      (setProjects toSeq projects).2 =
        (if toSeq.length ≠ 0 then PEvent.projectsAvailable else PEvent.projectsEmptied)
          :: [PEvent.projectsChanged projects toSeq] := by
  by_cases hl : toSeq.length ≠ 0 <;> simp [setProjects, h, hl]

/-- C3 witness: the change protocol at `[] → ["x"]`. -/
theorem setProjects_change_protocol_witness :
    (setProjects ["x"] []).1 = ["x"] ∧
      (setProjects ["x"] []).2 =
        (if (["x"] : List String).length ≠ 0 then PEvent.projectsAvailable
          else PEvent.projectsEmptied)
          :: [PEvent.projectsChanged [] ["x"]] :=
  setProjects_change_protocol [] ["x"] (by decide)

/- ### One-shot waiter: `UI.waitToSave` (src/lib/ui.js lines 212-224) -/

/-- A notification from the document collaborator: `onDidChangePath`
delivers the new path, `onDidDestroy` signals destruction. -/
inductive DocSignal where
  | pathChanged (file : String)
  | destroyed
deriving DecidableEq

/-- The observable state of one `waitToSave` call: whether the child
`CompositeDisposable` `cd` is still undisposed (its two document
listeners live), whether `cd` is still a member of the parent
`this.disposables`, and the promise's resolution value. -/
structure WaiterState where
  active : Bool
  inParent : Bool
  resolved : Option String
deriving DecidableEq

/-- State of a fresh `waitToSave` call: `cd` live, registered in the
parent set, promise pending. -/
def waiterInit : WaiterState :=
  ⟨true, true, none⟩

/-- `cd.dispose()`: disposes the members of the child set — the
`Disposable` that removes `cd` from the parent set, and the two document
subscriptions (so neither listener ever fires again). -/
def waiterDispose (s : WaiterState) : WaiterState :=
  { s with active := false, inParent := false }

/-- Deliver one document notification to the `waitToSave` listeners.
After `cd.dispose()` both listeners are unsubscribed, so the signal has
no effect.  While live: `onDidDestroy` runs `cd.dispose()`;
`onDidChangePath` runs `cd.dispose()` then `resolve(file)` (a JS promise
keeps its first resolution). -/
def waiterStep (s : WaiterState) (sig : DocSignal) : WaiterState :=
  if s.active then
    match sig with
    | DocSignal.destroyed => waiterDispose s
    | DocSignal.pathChanged file =>
        { waiterDispose s with
          resolved := match s.resolved with
            | none => some file
            | some x => some x }
  else s

/-- Deliver a whole sequence of document notifications to one
`waitToSave` call. -/
def runWaiter (sigs : List DocSignal) : WaiterState :=
  sigs.foldl waiterStep waiterInit

/-- The resolution `waitToSave`'s future should reach on a signal
sequence: the path of the first `path changed` notification, or nothing
when `destroyed` comes first (or no signal arrives). -/
def firstSave : List DocSignal → Option String
  | [] => none
  | DocSignal.pathChanged file :: _ => some file
  | DocSignal.destroyed :: _ => none

lemma waiterStep_inactive (s : WaiterState) (sig : DocSignal)
    (h : s.active = false) : waiterStep s sig = s := by
  simp [waiterStep, h]

lemma foldl_waiterStep_inactive (s : WaiterState) (sigs : List DocSignal)
    (h : s.active = false) : sigs.foldl waiterStep s = s := by
  induction sigs with
  | nil => rfl
  | cons sig rest ih => rw [List.foldl_cons, waiterStep_inactive s sig h, ih]

/-- C6: for any non-empty sequence of document notifications, the
`waitToSave` future resolves with the path of the first `path changed`
notification and never resolves when `destroyed` fires first; the first
notification disposes the child `CompositeDisposable` and removes it
from the parent set; and every further notification (here an arbitrary
suffix `more`) has no observable effect. -/
theorem waitToSave_one_shot (sigs more : List DocSignal) (hne : sigs ≠ []) :
    (runWaiter sigs).resolved = firstSave sigs ∧
      (runWaiter sigs).active = false ∧
      (runWaiter sigs).inParent = false ∧
      runWaiter (sigs ++ more) = runWaiter sigs := by
  cases sigs with
  | nil => exact absurd rfl hne
  | cons sig rest =>
      have hstep : (waiterStep waiterInit sig).active = false := by
        cases sig <;> rfl
      have habs : ∀ l : List DocSignal,
          l.foldl waiterStep (waiterStep waiterInit sig) = waiterStep waiterInit sig :=
        fun l => foldl_waiterStep_inactive _ l hstep
      have hrun : runWaiter (sig :: rest) = waiterStep waiterInit sig := by
        simp [runWaiter, habs rest]
      have hrunMore : runWaiter ((sig :: rest) ++ more) = waiterStep waiterInit sig := by
        simp [runWaiter, habs (rest ++ more)]
      refine ⟨?_, ?_, ?_, hrunMore.trans hrun.symm⟩
      · rw [hrun]; cases sig <;> rfl
      · rw [hrun]; exact hstep
      · rw [hrun]; cases sig <;> rfl

/-- C6 witness: two rapid path changes then a destroy resolve the future
once, with the first path. -/
theorem waitToSave_one_shot_witness :
    (runWaiter [DocSignal.pathChanged "a", DocSignal.pathChanged "b", DocSignal.destroyed]).resolved
        = firstSave [DocSignal.pathChanged "a", DocSignal.pathChanged "b", DocSignal.destroyed] ∧
      (runWaiter [DocSignal.pathChanged "a", DocSignal.pathChanged "b", DocSignal.destroyed]).active = false ∧
      (runWaiter [DocSignal.pathChanged "a", DocSignal.pathChanged "b", DocSignal.destroyed]).inParent = false ∧
      runWaiter ([DocSignal.pathChanged "a", DocSignal.pathChanged "b", DocSignal.destroyed]
          ++ [DocSignal.pathChanged "c"])
        = runWaiter [DocSignal.pathChanged "a", DocSignal.pathChanged "b", DocSignal.destroyed] :=
  waitToSave_one_shot
    [DocSignal.pathChanged "a", DocSignal.pathChanged "b", DocSignal.destroyed]
    [DocSignal.pathChanged "c"] (by decide)

/- ### Style environment: `document.styleSheets` -/

/-- The `ownerNode` of a style sheet, reduced to its `sourcePath`. -/
structure OwnerNode where
  sourcePath : String
deriving DecidableEq

/-- One CSS rule.  `rgbMatch` abstracts the extraction
`cssText.match(/rgb\(.+\)/)` followed by the numeric capture in
`getThemeColour` (src/lib/ui.js lines 162-165): `none` when the regex
does not match, otherwise the extracted channel numbers.  `styleTop` is
`rule.style.top`, the empty string when unset. -/
structure CssRule where
  selectorText : String
  rgbMatch : Option (List ℤ)
  styleTop : String
deriving DecidableEq

/-- One entry of `document.styleSheets`. -/
structure StyleSheet where
  ownerNode : Option OwnerNode
  cssRules : List CssRule
deriving DecidableEq

/-- The external style state `getStyleElement` and `getThemeColour` read:
the loaded package's path and the document's style sheets. -/
structure Env where
  packagePath : String
  styleSheets : List StyleSheet
deriving DecidableEq

/-- `join(packagePath, "styles", filename)` from the `path` module. -/
def stylePathFor (packagePath filename : String) : String :=
  packagePath ++ "/styles/" ++ filename

/-- `UI.getStyleElement(filename)` (src/lib/ui.js lines 146-155): the
first style sheet whose `ownerNode` exists and has the computed
`sourcePath`; `null` when none matches. -/
def getStyleElement (env : Env) (filename : String) : Option StyleSheet :=
  env.styleSheets.find? (fun ss =>
    match ss.ownerNode with
    | some node => node.sourcePath == stylePathFor env.packagePath filename
    | none => false)

/-- `UI.getThemeColour()` (src/lib/ui.js lines 158-168).  The code reads
`styleSheet.cssRules` without a null check, so when the colours sheet is
absent it throws a `TypeError` (modelled as `Except.error ()`);
otherwise it scans for the first `.theme-colour-check` rule and returns
its regex extraction (`none` standing for JS `null`, both for a missing
rule and a missing match). -/
def getThemeColour (env : Env) : Except Unit (Option (List ℤ)) :=
  match getStyleElement env "colours.less" with
  | none => Except.error ()
  | some ss =>
      match ss.cssRules.find? (fun r => r.selectorText == ".theme-colour-check") with
      | some r => Except.ok r.rgbMatch
      | none => Except.ok none

/-- Modelled from the spec: `rgbToHSL` lives in
`src/lib/utils/general.js`, which is not among the sources; the spec
says only that a boolean brightness flag is derived from the colour
sample.  The standard RGB→HSL lightness is `(max + min) / 2` over
channels normalised by 255, and `checkMotif` only compares it with
`0.5`; we keep the integer numerator `max + min`, so that the
comparison `L >= .5` becomes `255 ≤ rgbLightnessNum`. -/
def rgbLightnessNum (c : List ℤ) : ℤ :=
  let r := c.getD 0 0
  let g := c.getD 1 0
  let b := c.getD 2 0
  max r (max g b) + min r (min g b)

/-- The event `checkMotif` can dispatch. -/
inductive MEvent where
  | motifChanged (isLight : Bool)
deriving DecidableEq

/-- The stored brightness flag `this.lightTheme`. -/
structure MotifState where
  lightTheme : Bool
deriving DecidableEq

/-- The boolean brightness flag of a colour sample:
`rgbToHSL(colour)[2] >= .5` (src/lib/ui.js line 174, with the lightness
component modelled above). -/
def derivedFlag (colour : List ℤ) : Bool :=
  decide ((255 : ℤ) ≤ rgbLightnessNum colour)

/-- `UI.checkMotif()` (src/lib/ui.js lines 171-179): returns at once when
`getThemeColour` yields `null`; otherwise derives the brightness flag
and, only when it differs from `this.lightTheme`, stores it and emits
`motif-changed` with the new flag.  A `TypeError` from `getThemeColour`
propagates. -/
def checkMotif (env : Env) (s : MotifState) : Except Unit (MotifState × List MEvent) :=
  match getThemeColour env with
  | Except.error e => Except.error e
  | Except.ok none => Except.ok (s, [])
  | Except.ok (some colour) =>
      let isLight : Bool := derivedFlag colour
      if isLight != s.lightTheme then
        Except.ok (⟨isLight⟩, [MEvent.motifChanged isLight])
      else Except.ok (s, [])

/-- The derived reading of one environment: `none` when no colour
sample is obtained, otherwise the derived brightness flag. -/
def motifReading (env : Env) : Except Unit (Option Bool) :=
  (getThemeColour env).map (fun c => c.map derivedFlag)

/-- Run `checkMotif` over a sequence of style environments, collecting
every emitted event in order. -/
def runMotif (envs : List Env) (s : MotifState) : Except Unit (MotifState × List MEvent) :=
  match envs with
  | [] => Except.ok (s, [])
  | env :: rest =>
      match checkMotif env s with
      | Except.error e => Except.error e
      | Except.ok (s1, evs) =>
          match runMotif rest s1 with
          | Except.error e => Except.error e
          | Except.ok (s2, evs2) => Except.ok (s2, evs ++ evs2)

/-- The stored flag after a sequence of derived readings: undetermined
readings leave it alone, determined ones replace it. -/
def foldFlag (b : Bool) : List (Option Bool) → Bool
  | [] => b
  | none :: rest => foldFlag b rest
  | some d :: rest => foldFlag d rest

/-- The edge-triggered event sequence for a list of derived readings:
one `motif-changed` per change of the determined value, nothing on
repeats or undetermined readings. -/
def flipEvents (b : Bool) : List (Option Bool) → List MEvent
  | [] => []
  | none :: rest => flipEvents b rest
  | some d :: rest =>
      if d != b then MEvent.motifChanged d :: flipEvents d rest
      else flipEvents b rest

lemma checkMotif_of_reading_none (env : Env) (s : MotifState)
    (h : motifReading env = Except.ok none) :
    checkMotif env s = Except.ok (s, []) := by
  unfold motifReading at h
  unfold checkMotif
  cases hg : getThemeColour env with
  | error e => rw [hg] at h; simp [Except.map] at h
  | ok c =>
      rw [hg] at h
      cases c with
      | none => rfl
      | some colour => simp [Except.map] at h

lemma checkMotif_of_reading_some (env : Env) (s : MotifState) (d : Bool)
    (h : motifReading env = Except.ok (some d)) :
    checkMotif env s =
      if d != s.lightTheme then Except.ok (⟨d⟩, [MEvent.motifChanged d])
      else Except.ok (s, []) := by
  unfold motifReading at h
  unfold checkMotif
  cases hg : getThemeColour env with
  | error e => rw [hg] at h; simp [Except.map] at h
  | ok c =>
      rw [hg] at h
      cases c with
      | none => simp [Except.map] at h
      | some colour =>
          have hd : derivedFlag colour = d := by simpa [Except.map] using h
          simp [hd]

/-- C5: running `checkMotif` over any sequence of environments whose
derived readings are `rs` (no faults) produces exactly the edge-trigger
event sequence — one `motif-changed` per change of the determined
brightness value relative to the stored flag, nothing on repeated
identical readings or undetermined readings — and ends with the stored
flag tracking the last determined reading. -/
theorem checkMotif_edge_trigger (envs : List Env) (rs : List (Option Bool)) (s : MotifState)
    (h : List.Forall₂ (fun env r => motifReading env = Except.ok r) envs rs) :
    runMotif envs s = Except.ok (⟨foldFlag s.lightTheme rs⟩, flipEvents s.lightTheme rs) := by
  induction h generalizing s with
  | nil => cases s; rfl
  | @cons env r envs2 rs2 henv htail ih =>
      cases r with
      | none =>
          simp [runMotif, checkMotif_of_reading_none env s henv, ih, foldFlag, flipEvents]
      | some d =>
          by_cases hd : d = s.lightTheme
          · simp [runMotif, checkMotif_of_reading_some env s d henv, hd, ih,
              foldFlag, flipEvents]
          · simp [runMotif, checkMotif_of_reading_some env s d henv, hd, ih,
              foldFlag, flipEvents]

/-- A `.theme-colour-check` rule with the given regex extraction. -/
def checkRule (rgb : Option (List ℤ)) : CssRule :=
  ⟨".theme-colour-check", rgb, ""⟩

/-- A colours.less style sheet holding one check rule. -/
def colourSheet (rgb : Option (List ℤ)) : StyleSheet :=
  ⟨some ⟨"/pkg/styles/colours.less"⟩, [checkRule rgb]⟩

/-- An environment whose colour sample is the given extraction. -/
def envWith (rgb : Option (List ℤ)) : Env :=
  ⟨"/pkg", [colourSheet rgb]⟩

/-- A light theme sample (`rgb(255, 255, 255)`). -/
def envLight : Env := envWith (some [255, 255, 255])

/-- A dark theme sample (`rgb(0, 0, 0)`). -/
def envDark : Env := envWith (some [0, 0, 0])

/-- A colours sheet whose check rule's `cssText` has no rgb match. -/
def envNoSample : Env := envWith none

/-- A colours sheet without a `.theme-colour-check` rule. -/
def envNoRule : Env := ⟨"/pkg", [⟨some ⟨"/pkg/styles/colours.less"⟩, []⟩]⟩

/-- A document with no colours style sheet at all. -/
def envNoSheet : Env := ⟨"/pkg", []⟩

/-- C5 witness: readings light, light, undetermined, dark from the
stored-dark start emit exactly on the two transitions. -/
theorem checkMotif_edge_trigger_witness :
    runMotif [envLight, envLight, envNoSample, envDark] ⟨false⟩ =
      Except.ok
        (⟨foldFlag false [some true, some true, none, some false]⟩,
          flipEvents false [some true, some true, none, some false]) :=
  checkMotif_edge_trigger [envLight, envLight, envNoSample, envDark]
    [some true, some true, none, some false] ⟨false⟩
    (List.Forall₂.cons (by decide) (List.Forall₂.cons (by decide)
      (List.Forall₂.cons (by decide) (List.Forall₂.cons (by decide) List.Forall₂.nil))))

/-- C7: absence of the matching rule or of an rgb match is answered with
a neutral `null` and no emission, but absence of the colours style
sheet itself makes `getThemeColour` dereference `null.cssRules` — a
`TypeError` — and `checkMotif` faults with it, contradicting the spec's
never-raised absence handling. -/
theorem getThemeColour_faults_without_sheet :
    getStyleElement envNoSheet "colours.less" = none ∧
      getThemeColour envNoSheet = Except.error () ∧
      checkMotif envNoSheet ⟨false⟩ = Except.error () ∧
      getThemeColour envNoRule = Except.ok none ∧
      getThemeColour envNoSample = Except.ok none ∧
      checkMotif envNoRule ⟨false⟩ = Except.ok (⟨false⟩, []) ∧
      checkMotif envNoSample ⟨true⟩ = Except.ok (⟨true⟩, []) :=
  ⟨rfl, rfl, rfl, rfl, rfl, rfl, rfl⟩

/- ### Style patch manager: `UI.fixOffset` (src/lib/ui.js lines 182-209) -/

/-- The selector `fixOffset` scans for. -/
def offsetSelector : String :=
  ".list-group .icon::before, .list-tree .icon::before"

/-- The restoring capability `this.restoreOffset`: the closure
`new Disposable(_ => rule.style.top = offset)` holds the rule (here by
its sheet/rule position) and the captured offset value. -/
structure RestoreCap where
  sheetIdx : Nat
  ruleIdx : Nat
  offset : String
deriving DecidableEq

/-- The inner loop of `fixOffset`: the first rule matching the selector
whose `style.top` is truthy (non-empty), with its index and captured
`top` value. -/
def findRuleIdx : List CssRule → Option (Nat × String)
  | [] => none
  | rule :: rest =>
      if rule.selectorText == offsetSelector && rule.styleTop != "" then
        some (0, rule.styleTop)
      else (findRuleIdx rest).map (fun p => (p.1 + 1, p.2))

/-- The outer loop of `fixOffset`: scan the style sheets in order for
the first patchable rule. -/
def findOffsetRule : List StyleSheet → Option RestoreCap
  | [] => none
  | sheet :: rest =>
      match findRuleIdx sheet.cssRules with
      | some p => some ⟨0, p.1, p.2⟩
      | none => (findOffsetRule rest).map (fun c => { c with sheetIdx := c.sheetIdx + 1 })

/-- Write `rule.style.top = v` at a rule index. -/
def setTopRules : List CssRule → Nat → String → List CssRule
  | [], _, _ => []
  | rule :: rest, 0, v => { rule with styleTop := v } :: rest
  | rule :: rest, Nat.succ n, v => rule :: setTopRules rest n v

/-- Write `rule.style.top = v` at a sheet/rule position. -/
def setTop : List StyleSheet → Nat → Nat → String → List StyleSheet
  | [], _, _, _ => []
  | sheet :: rest, 0, r, v => { sheet with cssRules := setTopRules sheet.cssRules r v } :: rest
  | sheet :: rest, Nat.succ s, r, v => sheet :: setTop rest s r v

/-- Read `rule.style.top` at a sheet/rule position. -/
def getTop (sheets : List StyleSheet) (s r : Nat) : Option String :=
  sheets[s]?.bind (fun sheet => sheet.cssRules[r]?.map CssRule.styleTop)

/-- The patch-related fields of the `UI` singleton: `this.restoreOffset`
and the restore-capability members of `this.disposables`. -/
structure PatchState where
  restoreOffset : Option RestoreCap
  disposables : List RestoreCap
deriving DecidableEq

/-- Disposing a restoring capability runs
`rule.style.top = offset` on its captured rule. -/
def disposeCap (cap : RestoreCap) (sheets : List StyleSheet) : List StyleSheet :=
  setTop sheets cap.sheetIdx cap.ruleIdx cap.offset

/-- `UI.fixOffset()` (src/lib/ui.js lines 182-209): find the first
patchable rule; if none, a silent no-op.  Otherwise capture its `top`,
clear it, then — if a previous `this.restoreOffset` exists — dispose it
(writing its captured value back) and remove it from
`this.disposables`; finally install the new capability in both
`this.restoreOffset` and `this.disposables`. -/
def fixOffset (sheets : List StyleSheet) (st : PatchState) :
    List StyleSheet × PatchState :=
  match findOffsetRule sheets with
  | none => (sheets, st)
  | some cap =>
      let sheets1 := setTop sheets cap.sheetIdx cap.ruleIdx ""
      match st.restoreOffset with
      | some prev =>
          (disposeCap prev sheets1, ⟨some cap, st.disposables.erase prev ++ [cap]⟩)
      | none => (sheets1, ⟨some cap, st.disposables ++ [cap]⟩)

/-- Two successive `fixOffset` calls starting from a clean singleton
(no patch installed, no restore members). -/
def fixOffsetTwice (sheets : List StyleSheet) : List StyleSheet × PatchState :=
  fixOffset (fixOffset sheets ⟨none, []⟩).1 (fixOffset sheets ⟨none, []⟩).2

lemma findRuleIdx_spec (rules : List CssRule) (r : Nat) (off : String)
    (h : findRuleIdx rules = some (r, off)) :
    rules[r]?.map CssRule.styleTop = some off ∧ off ≠ "" := by
  induction rules generalizing r with
  | nil => simp [findRuleIdx] at h
  | cons rule rest ih =>
      unfold findRuleIdx at h
      by_cases hc : (rule.selectorText == offsetSelector && rule.styleTop != "") = true
      · rw [if_pos hc] at h
        simp only [Option.some.injEq, Prod.mk.injEq] at h
        obtain ⟨hr, hoff⟩ := h
        subst hr; subst hoff
        refine ⟨by simp, ?_⟩
        have := (Bool.and_eq_true _ _).mp hc
        simpa [bne] using this.2
      · rw [if_neg hc] at h
        cases hf : findRuleIdx rest with
        | none => rw [hf] at h; simp at h
        | some p =>
            rw [hf] at h
            simp only [Option.map_some', Option.some.injEq, Prod.mk.injEq] at h
            obtain ⟨hr, hoff⟩ := h
            subst hr; subst hoff
            simpa using ih p.1 hf

lemma findOffsetRule_spec (sheets : List StyleSheet) (cap : RestoreCap)
    (h : findOffsetRule sheets = some cap) :
    getTop sheets cap.sheetIdx cap.ruleIdx = some cap.offset ∧ cap.offset ≠ "" := by
  induction sheets generalizing cap with
  | nil => simp [findOffsetRule] at h
  | cons sheet rest ih =>
      unfold findOffsetRule at h
      cases hf : findRuleIdx sheet.cssRules with
      | some p =>
          rw [hf] at h
          simp only [Option.some.injEq] at h
          subst h
          obtain ⟨hget, hne⟩ := findRuleIdx_spec sheet.cssRules p.1 p.2 (by rw [hf])
          exact ⟨by simpa [getTop] using hget, hne⟩
      | none =>
          rw [hf] at h
          cases hr : findOffsetRule rest with
          | none => rw [hr] at h; simp at h
          | some c =>
              rw [hr] at h
              simp only [Option.map_some', Option.some.injEq] at h
              subst h
              obtain ⟨hg, hne⟩ := ih c hr
              exact ⟨by simpa [getTop] using hg, hne⟩

lemma get_setTopRules_same (rules : List CssRule) (r : Nat) (v : String) :
    (setTopRules rules r v)[r]?.map CssRule.styleTop =
      (rules[r]?.map CssRule.styleTop).map (fun _ => v) := by
  induction rules generalizing r with
  | nil => cases r <;> simp [setTopRules]
  | cons rule rest ih =>
      cases r with
      | zero => simp [setTopRules]
      | succ n => simpa [setTopRules] using ih n

lemma get_setTopRules_ne (rules : List CssRule) (r r2 : Nat) (v : String) (h : r ≠ r2) :
    (setTopRules rules r v)[r2]? = rules[r2]? := by
  induction rules generalizing r r2 with
  | nil => simp [setTopRules]
  | cons rule rest ih =>
      cases r with
      | zero =>
          cases r2 with
          | zero => exact absurd rfl h
          | succ m => simp [setTopRules]
      | succ n =>
          cases r2 with
          | zero => simp [setTopRules]
          | succ m => simpa [setTopRules] using ih n m (fun hc => h (by rw [hc]))

lemma getTop_setTop_same (sheets : List StyleSheet) (s r : Nat) (v : String) :
    getTop (setTop sheets s r v) s r = (getTop sheets s r).map (fun _ => v) := by
  induction sheets generalizing s with
  | nil => cases s <;> simp [setTop, getTop]
  | cons sheet rest ih =>
      cases s with
      | zero => simp [setTop, getTop, get_setTopRules_same]
      | succ n => simpa [setTop, getTop] using ih n

lemma getTop_setTop_ne (sheets : List StyleSheet) (s r s2 r2 : Nat) (v : String)
    (h : s ≠ s2 ∨ r ≠ r2) :
    getTop (setTop sheets s r v) s2 r2 = getTop sheets s2 r2 := by
  induction sheets generalizing s s2 with
  | nil => simp [setTop]
  | cons sheet rest ih =>
      cases s with
      | zero =>
          cases s2 with
          | zero =>
              have hr : r ≠ r2 := by
                rcases h with h | h
                · exact absurd rfl h
                · exact h
              simp [setTop, getTop, get_setTopRules_ne sheet.cssRules r r2 v hr]
          | succ m => simp [setTop, getTop]
      | succ n =>
          cases s2 with
          | zero => simp [setTop, getTop]
          | succ m =>
              have h2 : n ≠ m ∨ r ≠ r2 := by
                rcases h with h | h
                · exact Or.inl (fun hc => h (by rw [hc]))
                · exact Or.inr h
              simpa [setTop, getTop] using ih n m h2

/-- C8: from a clean singleton, when the first `fixOffset` call finds a
patchable rule, two successive calls leave exactly one active restoring
capability (the restore members of `this.disposables` are exactly the
current `this.restoreOffset`), whose captured offset is the rule's value
in the original style sheets — non-empty, never the cleared state — and
disposing it writes that originally captured value back. -/
theorem fixOffset_unique_patch (sheets : List StyleSheet) (cap : RestoreCap)
    (hfind : findOffsetRule sheets = some cap) :
    (fixOffsetTwice sheets).2.restoreOffset.isSome = true ∧
    (fixOffsetTwice sheets).2.disposables = (fixOffsetTwice sheets).2.restoreOffset.toList ∧
    (fixOffsetTwice sheets).2.restoreOffset.map RestoreCap.offset ≠ some "" ∧
    (fixOffsetTwice sheets).2.restoreOffset.bind
        (fun c => getTop sheets c.sheetIdx c.ruleIdx)
      = (fixOffsetTwice sheets).2.restoreOffset.map RestoreCap.offset ∧
    (fixOffsetTwice sheets).2.restoreOffset.bind
        (fun c => getTop (disposeCap c (fixOffsetTwice sheets).1) c.sheetIdx c.ruleIdx)
      = (fixOffsetTwice sheets).2.restoreOffset.map RestoreCap.offset := by
  obtain ⟨hget, hne⟩ := findOffsetRule_spec sheets cap hfind
  have hfix1 : fixOffset sheets ⟨none, []⟩ =
      (setTop sheets cap.sheetIdx cap.ruleIdx "", ⟨some cap, [cap]⟩) := by
    simp [fixOffset, hfind]
  cases hfind2 : findOffsetRule (setTop sheets cap.sheetIdx cap.ruleIdx "") with
  | none =>
      have h2 : fixOffsetTwice sheets =
          (setTop sheets cap.sheetIdx cap.ruleIdx "", ⟨some cap, [cap]⟩) := by
        show fixOffset (fixOffset sheets ⟨none, []⟩).1 (fixOffset sheets ⟨none, []⟩).2 = _
        rw [hfix1]
        simp [fixOffset, hfind2]
      rw [h2]
      refine ⟨rfl, rfl, ?_, ?_, ?_⟩
      · simpa using hne
      · simpa using hget
      · show getTop (disposeCap cap (setTop sheets cap.sheetIdx cap.ruleIdx ""))
            cap.sheetIdx cap.ruleIdx = some cap.offset
        rw [disposeCap, getTop_setTop_same, getTop_setTop_same, hget]
        rfl
  | some cap2 =>
      obtain ⟨hget2', hne2⟩ := findOffsetRule_spec _ cap2 hfind2
      have hloc : cap.sheetIdx ≠ cap2.sheetIdx ∨ cap.ruleIdx ≠ cap2.ruleIdx := by
        by_contra hc
        push_neg at hc
        obtain ⟨h1, h2⟩ := hc
        rw [← h1, ← h2, getTop_setTop_same, hget] at hget2'
        simp at hget2'
        exact hne2 hget2'.symm
      have hget2 : getTop sheets cap2.sheetIdx cap2.ruleIdx = some cap2.offset := by
        rw [← getTop_setTop_ne sheets cap.sheetIdx cap.ruleIdx cap2.sheetIdx cap2.ruleIdx "" hloc]
        exact hget2'
      have h2 : fixOffsetTwice sheets =
          (disposeCap cap
              (setTop (setTop sheets cap.sheetIdx cap.ruleIdx "")
                cap2.sheetIdx cap2.ruleIdx ""),
            ⟨some cap2, [cap2]⟩) := by
        show fixOffset (fixOffset sheets ⟨none, []⟩).1 (fixOffset sheets ⟨none, []⟩).2 = _
        rw [hfix1]
        simp [fixOffset, hfind2, List.erase_cons_head]
      rw [h2]
      refine ⟨rfl, rfl, ?_, ?_, ?_⟩
      · simpa using hne2
      · simpa using hget2
      · show getTop
            (disposeCap cap2
              (disposeCap cap
                (setTop (setTop sheets cap.sheetIdx cap.ruleIdx "")
                  cap2.sheetIdx cap2.ruleIdx "")))
            cap2.sheetIdx cap2.ruleIdx = some cap2.offset
        rw [disposeCap, disposeCap, getTop_setTop_same,
          getTop_setTop_ne _ _ _ _ _ _ hloc, getTop_setTop_same,
          getTop_setTop_ne _ _ _ _ _ _ hloc, hget2]
        rfl

/-- A style source with one patchable rule, `top: 4px`. -/
def patchSheets : List StyleSheet :=
  [⟨none, [⟨offsetSelector, none, "4px"⟩]⟩]

/-- C8 witness: two `fixOffset` calls on the concrete style source. -/
theorem fixOffset_unique_patch_witness :
    (fixOffsetTwice patchSheets).2.restoreOffset.isSome = true ∧
    (fixOffsetTwice patchSheets).2.disposables = (fixOffsetTwice patchSheets).2.restoreOffset.toList ∧
    (fixOffsetTwice patchSheets).2.restoreOffset.map RestoreCap.offset ≠ some "" ∧
    (fixOffsetTwice patchSheets).2.restoreOffset.bind
        (fun c => getTop patchSheets c.sheetIdx c.ruleIdx)
      = (fixOffsetTwice patchSheets).2.restoreOffset.map RestoreCap.offset ∧
    (fixOffsetTwice patchSheets).2.restoreOffset.bind
        (fun c => getTop (disposeCap c (fixOffsetTwice patchSheets).1) c.sheetIdx c.ruleIdx)
      = (fixOffsetTwice patchSheets).2.restoreOffset.map RestoreCap.offset :=
  fixOffset_unique_patch patchSheets ⟨0, 0, "4px"⟩ (by decide)

end Spec2Proof
